import Mathlib

/-!
Verification development for the S&OP analytics dashboard (`sop_main.py`).

The core of the program is the metrics engine:
  - `generate_data` builds a synthetic (Date, Actual, Forecast) table from a
    seeded numpy RNG;
  - `calculate_metrics` attaches the derived columns Error, Absolute_Error and
    Percentage_Error to the caller's DataFrame (pandas column assignment
    mutates the frame in place) and returns the MAPE / WMAPE / BIAS /
    Forecast_Accuracy summary;
  - `error_bins` is the histogram `pd.cut(df['Error'], bins=5).value_counts()`
    used by the dashboard.

Pandas numeric cells are modelled by `PVal`: an exact rational together with
the special values +inf, -inf and NaN, with IEEE-style propagation rules for
the arithmetic the script performs (subtraction, absolute value, division,
sums and means with `skipna=True`).  Exact rationals stand in for floats; none
of the claims checked here depends on rounding of float arithmetic, only on
the inf/NaN propagation and comparison behaviour, which `PVal` reproduces.
-/

/-- Absolute value on ℚ, written out so that every concrete computation in
this file reduces in the kernel (the library `|·|` on ℚ goes through lattice
instances that do not). -/
def ratAbs (q : ℚ) : ℚ := if q < 0 then -q else q

theorem ratAbs_eq_abs (q : ℚ) : ratAbs q = |q| := by
  rw [ratAbs]
  split
  · exact (abs_of_neg (by assumption)).symm
  · exact (abs_of_nonneg (not_lt.mp (by assumption))).symm

theorem ratAbs_nonneg (q : ℚ) : 0 ≤ ratAbs q := by
  rw [ratAbs_eq_abs]; exact abs_nonneg q

/-- A pandas numeric cell: a (rational) number, +inf, -inf, or NaN. -/
inductive PVal where
  | num (q : ℚ)
  | inf
  | ninf
  | nan
deriving DecidableEq, Repr

namespace PVal

/-- IEEE-style addition (exact on numbers): NaN propagates, inf + (-inf) = NaN. -/
def add : PVal → PVal → PVal
  | num a, num b => num (a + b)
  | nan, _ => nan
  | _, nan => nan
  | inf, ninf => nan
  | ninf, inf => nan
  | inf, _ => inf
  | _, inf => inf
  | ninf, _ => ninf
  | _, ninf => ninf

/-- IEEE-style negation. -/
def neg : PVal → PVal
  | num a => num (-a)
  | inf => ninf
  | ninf => inf
  | nan => nan

/-- Subtraction, `x - y = x + (-y)` (exact IEEE identity on these values). -/
def sub (x y : PVal) : PVal := x.add y.neg

/-- Absolute value: `np.abs`. -/
def abs : PVal → PVal
  | num a => num (ratAbs a)
  | inf => inf
  | ninf => inf
  | nan => nan

/-- IEEE/numpy-style division: x/0 is ±inf for x ≠ 0 and NaN for 0/0
(numpy emits a warning but no exception), finite/inf = 0, NaN propagates. -/
def div : PVal → PVal → PVal
  | nan, _ => nan
  | _, nan => nan
  | num a, num b =>
      if b = 0 then (if a = 0 then nan else if 0 < a then inf else ninf)
      else num (a / b)
  | num _, inf => num 0
  | num _, ninf => num 0
  | inf, num b => if 0 ≤ b then inf else ninf
  | ninf, num b => if 0 ≤ b then ninf else inf
  | inf, inf => nan
  | inf, ninf => nan
  | ninf, inf => nan
  | ninf, ninf => nan

/-- Multiplication by the positive constant 100 (the `* 100` in the script). -/
def mul100 : PVal → PVal
  | num a => num (a * 100)
  | inf => inf
  | ninf => ninf
  | nan => nan

/-- `Series.replace(np.inf, 0)`: replaces +inf (only) with 0. -/
def replaceInfZero : PVal → PVal
  | inf => num 0
  | v => v

/-- Is this cell NaN? -/
def isNan : PVal → Bool
  | nan => true
  | _ => false

/-- Is this cell an ordinary number? -/
def isNum : PVal → Bool
  | num _ => true
  | _ => false

/-- The rational carried by a `num` cell (0 for the special values). -/
def toQ : PVal → ℚ
  | num q => q
  | _ => 0

end PVal

/-- pandas `Series.sum()` with the default `skipna=True`: NaN entries are
dropped, the rest are added (an empty sum is 0). -/
def seriesSum (l : List PVal) : PVal :=
  (l.filter (fun v => !v.isNan)).foldr PVal.add (PVal.num 0)

/-- The number of non-NaN entries of a series (the `count` used by `mean`). -/
def seriesCount (l : List PVal) : ℕ :=
  (l.filter (fun v => !v.isNan)).length

/-- pandas `Series.mean()` with `skipna=True`: sum of the non-NaN entries
divided by their count; the mean of an all-NaN or empty series is NaN
(0/0 in the model, exactly as pandas returns NaN). -/
def seriesMean (l : List PVal) : PVal :=
  (seriesSum l).div (PVal.num (seriesCount l))

/-- One row of the data table: the Date column (modelled as the day offset
from the start date) and the Actual and Forecast cells. -/
structure Row where
  date : ℕ
  actual : PVal
  forecast : PVal
deriving DecidableEq, Repr

/-- Both numeric cells of the row are ordinary numbers. -/
def Row.isNumeric (r : Row) : Bool :=
  r.actual.isNum && r.forecast.isNum

/-- The rational error `forecast - actual` of a numeric row. -/
def qError (r : Row) : ℚ := r.forecast.toQ - r.actual.toQ

/-- A pandas DataFrame as the script uses it: the base rows plus the three
derived columns, absent until `calculate_metrics` attaches them. -/
structure DataFrame where
  rows : List Row
  errorCol : Option (List PVal) := none
  absErrorCol : Option (List PVal) := none
  pctErrorCol : Option (List PVal) := none
deriving DecidableEq, Repr

/-- Row-wise value of `df['Error'] = df['Forecast'] - df['Actual']`. -/
def rowError (r : Row) : PVal := r.forecast.sub r.actual

/-- Row-wise value of `df['Absolute_Error'] = np.abs(df['Error'])`. -/
def absolute_error_of (r : Row) : PVal := (rowError r).abs

/-- Row-wise value of
`df['Percentage_Error'] = (df['Absolute_Error'] / df['Actual']).replace(np.inf, 0)`. -/
def percentage_error_of (r : Row) : PVal :=
  ((absolute_error_of r).div r.actual).replaceInfZero

/-- The result dictionary of `calculate_metrics`. -/
structure MetricsSummary where
  MAPE : PVal
  WMAPE : PVal
  BIAS : PVal
  Forecast_Accuracy : PVal
deriving DecidableEq, Repr

/-- `calculate_metrics(df)` from `sop_main.py`.  Column assignment in pandas
mutates the caller's frame, so the function is modelled as a state
transformer: it returns the updated DataFrame (with the three derived columns
attached) together with the metrics dictionary
`{MAPE, WMAPE, BIAS, Forecast_Accuracy}`. -/
def calculate_metrics (df : DataFrame) : DataFrame × MetricsSummary :=
  let errC := df.rows.map rowError
  let absC := df.rows.map absolute_error_of
  let pctC := df.rows.map percentage_error_of
  let df2 : DataFrame :=
    { rows := df.rows, errorCol := some errC,
      absErrorCol := some absC, pctErrorCol := some pctC }
  let mape := (seriesMean pctC).mul100
  let wmape := ((seriesSum absC).div (seriesSum (df.rows.map Row.actual))).mul100
  let bias := seriesMean errC
  let accuracy := (PVal.num 100).sub mape
  (df2, { MAPE := mape, WMAPE := wmape, BIAS := bias,
          Forecast_Accuracy := accuracy })

/-! ### Histogram: `pd.cut(df['Error'], bins=5).value_counts()` -/

/-- Minimum of a list of rationals (`Series.min`); 0 for the empty list,
on which the script never calls it. -/
def listMin : List ℚ → ℚ
  | [] => 0
  | x :: xs => xs.foldl min x

/-- Maximum of a list of rationals (`Series.max`). -/
def listMax : List ℚ → ℚ
  | [] => 0
  | x :: xs => xs.foldl max x

/-- The 0.1% widening pandas `cut` applies to a degenerate (min = max)
endpoint: `x -= 0.001 * abs(x) if x != 0 else 0.001`. -/
def cutEpsilon (x : ℚ) : ℚ := if x = 0 then 1 / 1000 else ratAbs x / 1000

/-- Bin edge `i` of `pd.cut(l, bins=b)` (right-closed intervals).
For min < max the edges are `linspace(min, max, b+1)` with the leftmost edge
lowered by 0.1% of the range so the minimum value is included; for
min = max both endpoints are first widened by `cutEpsilon`. -/
def cutEdge (l : List ℚ) (b : ℕ) (i : ℕ) : ℚ :=
  let mn := listMin l
  let mx := listMax l
  if mn = mx then
    (mn - cutEpsilon mn) + i * ((mx + cutEpsilon mx) - (mn - cutEpsilon mn)) / b
  else
    if i = 0 then mn - (mx - mn) / 1000 else mn + i * (mx - mn) / b

/-- Insert an (interval, count) pair into a list kept in descending count
order: the pair goes in front of the first entry with a strictly smaller
count.  This is the comparison `sort_values(ascending=False)` performs in
`value_counts`. -/
def insertByCount (x : (ℚ × ℚ) × ℕ) : List ((ℚ × ℚ) × ℕ) → List ((ℚ × ℚ) × ℕ)
  | [] => [x]
  | y :: ys => if y.2 < x.2 then x :: y :: ys else y :: insertByCount x ys

/-- Sort (interval, count) pairs by descending count, as
`value_counts(sort=True)` does.  pandas leaves the relative order of equal
counts unspecified (quicksort); this model fixes one such order. -/
def sortByCountDesc : List ((ℚ × ℚ) × ℕ) → List ((ℚ × ℚ) × ℕ)
  | [] => []
  | x :: xs => insertByCount x (sortByCountDesc xs)

/-- `pd.cut(l, bins=b).value_counts()`: the `b` right-closed equal-width
intervals over the (adjusted) range of `l`, each with the number of elements
of `l` it contains, listed in descending count order. -/
def error_bins (l : List ℚ) (b : ℕ) : List ((ℚ × ℚ) × ℕ) :=
  sortByCountDesc ((List.range b).map fun i =>
    ((cutEdge l b i, cutEdge l b (i + 1)),
      l.countP fun v => decide (cutEdge l b i < v ∧ v ≤ cutEdge l b (i + 1))))

/-- The histogram the dashboard builds at line 153 of `sop_main.py`:
`pd.cut(df['Error'], bins=5).value_counts()` over the Error column attached
by `calculate_metrics`. -/
def error_bins_df (df : DataFrame) : List ((ℚ × ℚ) × ℕ) :=
  error_bins (df.rows.map fun r => (rowError r).toQ) 5

/-! ### The synthetic data generator and the tab-2 pipeline -/

/-- The numpy global RNG state: current seed and position in the stream. -/
structure RngState where
  seed : ℕ
  pos : ℕ

/-- `np.random.seed(s)`: resets the global RNG state. -/
def npSeed (s : ℕ) (_ : RngState) : RngState := ⟨s, 0⟩

/-- `np.random.normal(loc, scale, n)` on the global RNG: consumes the next
`n` standard draws of the stream (the stream itself — a function from seed
and position to the drawn value — is a parameter of the model; no claim
depends on the actual Gaussian values) and advances the state. -/
def npNormal (stream : ℕ → ℕ → ℚ) (loc scale : ℚ) (n : ℕ) (st : RngState) :
    List ℚ × RngState :=
  (((List.range n).map fun i => loc + scale * stream st.seed (st.pos + i)),
    ⟨st.seed, st.pos + n⟩)

/-- numpy `.round()`: round half to even. -/
def roundHalfEven (q : ℚ) : ℤ :=
  if q - ⌊q⌋ = 1 / 2 then (if 2 ∣ ⌊q⌋ then ⌊q⌋ else ⌊q⌋ + 1) else round q

/-- numpy `.astype(int)`: truncation toward zero. -/
def truncQ (q : ℚ) : ℤ := Int.tdiv q.num q.den

/-- `generate_data(n)` from `sop_main.py`: seeds the global RNG with 42,
draws `actual ~ N(500, 500/3)` rounded to int, then
`forecast = (actual * N(0.9, 0.2) + 100).astype(int)`, and returns the
(Date, Actual, Forecast) table together with the RNG state after the call. -/
def generate_data (stream : ℕ → ℕ → ℚ) (n : ℕ) (st : RngState) :
    List Row × RngState :=
  let st0 := npSeed 42 st
  let p1 := npNormal stream 500 (500 / 3) n st0
  let actual := p1.1.map roundHalfEven
  let p2 := npNormal stream (9 / 10) (1 / 5) n p1.2
  let forecast := (actual.zip p2.1).map fun p => truncQ ((p.1 : ℚ) * p.2 + 100)
  (((List.range n).zip (actual.zip forecast)).map fun p =>
      ⟨p.1, PVal.num (p.2.1 : ℚ), PVal.num (p.2.2 : ℚ)⟩,
    p2.2)

/-- The tab-2 pipeline of the dashboard: reads the three sliders, generates
the dataset from `n_records` alone (the code never passes `base_actual` or
`noise_level` to `generate_data`), and computes the metrics. -/
def tab2_metrics (stream : ℕ → ℕ → ℚ) (n_records base_actual noise_level : ℕ)
    (st : RngState) : MetricsSummary :=
  let df := (generate_data stream n_records st).1
  (calculate_metrics { rows := df }).2

/-! ### Basic lemmas about the series operations -/

theorem PVal.isNan_num (q : ℚ) : (PVal.num q).isNan = false := rfl

theorem seriesSum_cons_nan (l : List PVal) :
    seriesSum (PVal.nan :: l) = seriesSum l := by
  simp [seriesSum, PVal.isNan]

theorem seriesCount_cons_nan (l : List PVal) :
    seriesCount (PVal.nan :: l) = seriesCount l := by
  simp [seriesCount, PVal.isNan]

theorem seriesMean_cons_nan (l : List PVal) :
    seriesMean (PVal.nan :: l) = seriesMean l := by
  rw [seriesMean, seriesSum_cons_nan, seriesCount_cons_nan, seriesMean]

theorem seriesSum_cons_num (q : ℚ) (l : List PVal) :
    seriesSum (PVal.num q :: l) = (PVal.num q).add (seriesSum l) := by
  simp [seriesSum, PVal.isNan]

theorem seriesSum_map_num (l : List ℚ) :
    seriesSum (l.map PVal.num) = PVal.num l.sum := by
  induction l with
  | nil => rfl
  | cons x xs ih =>
      rw [List.map_cons, seriesSum_cons_num, ih, List.sum_cons]
      rfl

theorem rowError_numeric (r : Row) (h : r.isNumeric = true) :
    rowError r = PVal.num (qError r) := by
  obtain ⟨d, a, f⟩ := r
  cases a <;> cases f <;>
    simp_all [Row.isNumeric, PVal.isNum, rowError, PVal.sub, PVal.neg,
      PVal.add, qError, PVal.toQ, sub_eq_add_neg]

theorem absolute_error_of_numeric (r : Row) (h : r.isNumeric = true) :
    absolute_error_of r = PVal.num (ratAbs (qError r)) := by
  rw [absolute_error_of, rowError_numeric r h]; rfl

/-! ### Claim theorems -/

/-- Claim C3: for the two-row dataset (actual 100, forecast 110),
(actual 200, forecast 180), the engine computes per-row errors [10, -20],
BIAS = -5, MAPE = 10, WMAPE = 10 and Forecast_Accuracy = 90. -/
theorem C3_theorem :
    (calculate_metrics { rows := [⟨0, PVal.num 100, PVal.num 110⟩,
        ⟨1, PVal.num 200, PVal.num 180⟩] }).2
      = { MAPE := PVal.num 10, WMAPE := PVal.num 10, BIAS := PVal.num (-5),
          Forecast_Accuracy := PVal.num 90 }
    ∧ (calculate_metrics { rows := [⟨0, PVal.num 100, PVal.num 110⟩,
        ⟨1, PVal.num 200, PVal.num 180⟩] }).1.errorCol
      = some [PVal.num 10, PVal.num (-20)] := by
  norm_num [calculate_metrics, seriesMean, seriesSum, seriesCount,
    percentage_error_of, absolute_error_of, rowError, PVal.sub, PVal.add,
    PVal.neg, PVal.abs, PVal.div, PVal.mul100, ratAbs, PVal.replaceInfZero,
    PVal.isNan, MetricsSummary.mk.injEq]

/-- Claim C2, counterexample: on a row with actual = 0 and forecast = 0 the
code computes Percentage_Error 0/0 = NaN, and `replace(np.inf, 0)` does not
replace NaN, so the claimed value 0 is not produced. -/
theorem C2_counterexample :
    percentage_error_of ⟨0, PVal.num 0, PVal.num 0⟩ = PVal.nan
    ∧ percentage_error_of ⟨0, PVal.num 0, PVal.num 0⟩ ≠ PVal.num 0 := by
  have h : percentage_error_of ⟨0, PVal.num 0, PVal.num 0⟩ = PVal.nan := by
    norm_num [percentage_error_of, absolute_error_of, rowError, PVal.sub,
      PVal.add, PVal.neg, PVal.abs, PVal.div, ratAbs, PVal.replaceInfZero]
  exact ⟨h, by rw [h]; decide⟩

/-- Claim C2, amended: on a zero-actual row the Percentage_Error is 0 when
the forecast is nonzero (the +inf from division by zero is replaced by 0),
but NaN when the forecast is also 0 (0/0; NaN is then skipped by the MAPE
mean rather than contributing 0). -/
theorem C2_theorem (d : ℕ) (f : ℚ) :
    percentage_error_of ⟨d, PVal.num 0, PVal.num f⟩
      = if f = 0 then PVal.nan else PVal.num 0 := by
  have habs : absolute_error_of ⟨d, PVal.num 0, PVal.num f⟩
      = PVal.num (ratAbs f) := by
    rw [absolute_error_of_numeric _ (by rfl)]
    simp [qError, PVal.toQ]
  rw [percentage_error_of, habs]
  by_cases hf : f = 0
  · simp [hf, ratAbs, PVal.div, PVal.replaceInfZero]
  · have h1 : ¬ ratAbs f = 0 := by
      rw [ratAbs_eq_abs]; simpa using hf
    have h2 : 0 < ratAbs f := by
      rw [ratAbs_eq_abs]; exact abs_pos.mpr hf
    simp [PVal.div, h1, h2, PVal.replaceInfZero, hf]

/-- Claim C6, counterexample: `calculate_metrics` does not leave the caller's
DataFrame unchanged — it attaches the three derived columns in place
(pandas column assignment mutates the frame). -/
theorem C6_counterexample :
    (calculate_metrics { rows := [⟨0, PVal.num 100, PVal.num 110⟩] }).1
      ≠ { rows := [⟨0, PVal.num 100, PVal.num 110⟩] } := by
  simp [calculate_metrics, DataFrame.mk.injEq]

/-- Claim C6, amended: `calculate_metrics` mutates the caller's DataFrame by
attaching the columns Error, Absolute_Error and Percentage_Error, but the
underlying rows (Date, Actual, Forecast) are left unchanged, and the attached
columns are exactly the derived per-row error fields. -/
theorem C6_theorem (df : DataFrame) :
    (calculate_metrics df).1.rows = df.rows
    ∧ (calculate_metrics df).1.errorCol = some (df.rows.map rowError)
    ∧ (calculate_metrics df).1.absErrorCol
        = some (df.rows.map absolute_error_of)
    ∧ (calculate_metrics df).1.pctErrorCol
        = some (df.rows.map percentage_error_of) :=
  ⟨rfl, rfl, rfl, rfl⟩

/-- Claim C10: `generate_data` re-seeds the global RNG with the fixed seed 42
on every call, so its output is a function of `n` alone — independent of the
incoming RNG state (hence two successive calls agree) — and the tab-2
pipeline never passes `base_actual` or `noise_level` to the generator, so the
generated dataset and the computed metrics are unchanged when those sliders
change.  `stream` ranges over all possible underlying standard-normal draw
sequences. -/
theorem C10_theorem (stream : ℕ → ℕ → ℚ) (n : ℕ) (st st' : RngState)
    (b1 nl1 b2 nl2 : ℕ) :
    (generate_data stream n st).1 = (generate_data stream n st').1
    ∧ tab2_metrics stream n b1 nl1 st = tab2_metrics stream n b2 nl2 st' :=
  ⟨rfl, rfl⟩

/-- Claim C4, counterexample: a dataset whose first row has a missing
(NaN) actual value does not abort with a ValidationError — the code has no
validation at all — and a full metrics summary is produced from the
remaining valid row (MAPE 10, WMAPE 10, BIAS 10, accuracy 90). -/
theorem C4_counterexample :
    (calculate_metrics { rows := [⟨0, PVal.nan, PVal.num 5⟩,
        ⟨1, PVal.num 100, PVal.num 110⟩] }).2
      = { MAPE := PVal.num 10, WMAPE := PVal.num 10, BIAS := PVal.num 10,
          Forecast_Accuracy := PVal.num 90 } := by
  norm_num [calculate_metrics, seriesMean, seriesSum, seriesCount,
    percentage_error_of, absolute_error_of, rowError, PVal.sub, PVal.add,
    PVal.neg, PVal.abs, PVal.div, PVal.mul100, ratAbs, PVal.replaceInfZero,
    PVal.isNan, MetricsSummary.mk.injEq]

/-- Claim C4, amended: a row with a missing (NaN) actual raises no error;
its derived fields Error, Absolute_Error and Percentage_Error are all NaN,
and since every aggregate skips NaN (and the row's actual is NaN in the WMAPE
denominator), prepending such a row leaves the computed summary exactly the
summary of the remaining rows — partial metrics, not an abort. -/
theorem C4_theorem (df : DataFrame) (r : Row) (h : r.actual = PVal.nan) :
    rowError r = PVal.nan
    ∧ absolute_error_of r = PVal.nan
    ∧ percentage_error_of r = PVal.nan
    ∧ (calculate_metrics { df with rows := r :: df.rows }).2
        = (calculate_metrics df).2 := by
  have herr : rowError r = PVal.nan := by
    rw [rowError, PVal.sub, h]
    cases r.forecast <;> rfl
  have habs : absolute_error_of r = PVal.nan := by
    rw [absolute_error_of, herr]; rfl
  have hpct : percentage_error_of r = PVal.nan := by
    rw [percentage_error_of, habs]
    cases r.actual <;> rfl
  refine ⟨herr, habs, hpct, ?_⟩
  simp only [calculate_metrics, List.map_cons, herr, habs, hpct, h]
  simp only [seriesSum_cons_nan, seriesCount_cons_nan, seriesMean_cons_nan]

/-- Claim C4, witness for the amended theorem at a concrete input. -/
theorem C4_witness :
    rowError ⟨0, PVal.nan, PVal.num 5⟩ = PVal.nan
    ∧ absolute_error_of ⟨0, PVal.nan, PVal.num 5⟩ = PVal.nan
    ∧ percentage_error_of ⟨0, PVal.nan, PVal.num 5⟩ = PVal.nan
    ∧ (calculate_metrics { rows := (⟨0, PVal.nan, PVal.num 5⟩ : Row)
          :: ({ rows := [⟨1, PVal.num 100, PVal.num 110⟩] } : DataFrame).rows }).2
        = (calculate_metrics { rows := [⟨1, PVal.num 100, PVal.num 110⟩] }).2 :=
  C4_theorem { rows := [⟨1, PVal.num 100, PVal.num 110⟩] }
    ⟨0, PVal.nan, PVal.num 5⟩ rfl

/-- Claim C1, counterexample: on the all-zero-actual dataset
[(0, 10), (0, 20)] `calculate_metrics` does not fail with any
DivisionError-class condition; it silently returns a summary whose WMAPE is
+infinity (and whose MAPE has been coerced to 0 by `replace(np.inf, 0)`). -/
theorem C1_counterexample :
    (calculate_metrics { rows := [⟨0, PVal.num 0, PVal.num 10⟩,
        ⟨1, PVal.num 0, PVal.num 20⟩] }).2
      = { MAPE := PVal.num 0, WMAPE := PVal.inf, BIAS := PVal.num 15,
          Forecast_Accuracy := PVal.num 100 } := by
  norm_num [calculate_metrics, seriesMean, seriesSum, seriesCount,
    percentage_error_of, absolute_error_of, rowError, PVal.sub, PVal.add,
    PVal.neg, PVal.abs, PVal.div, PVal.mul100, ratAbs, PVal.replaceInfZero,
    PVal.isNan, MetricsSummary.mk.injEq]

/-- Claim C1, amended: `calculate_metrics` never raises on sum(actual) = 0 or
on an empty dataset.  When the Actual column sums to 0, the returned WMAPE is
silently NaN (if the absolute errors also sum to 0) or +infinity (otherwise);
for the empty dataset every returned metric is NaN. -/
theorem C1_theorem (df : DataFrame)
    (hnum : ∀ r ∈ df.rows, r.isNumeric = true)
    (hz : seriesSum (df.rows.map Row.actual) = PVal.num 0) :
    ((calculate_metrics df).2.WMAPE
        = if (df.rows.map fun r => ratAbs (qError r)).sum = 0 then PVal.nan
          else PVal.inf)
    ∧ (df.rows = [] →
        (calculate_metrics df).2
          = ⟨PVal.nan, PVal.nan, PVal.nan, PVal.nan⟩) := by
  constructor
  · have habs : df.rows.map absolute_error_of
        = (df.rows.map fun r => ratAbs (qError r)).map PVal.num := by
      rw [List.map_map]
      exact List.map_congr_left fun r hr => by
        rw [absolute_error_of_numeric r (hnum r hr)]; rfl
    have hS : seriesSum (df.rows.map absolute_error_of)
        = PVal.num ((df.rows.map fun r => ratAbs (qError r)).sum) := by
      rw [habs, seriesSum_map_num]
    have hS0 : 0 ≤ (df.rows.map fun r => ratAbs (qError r)).sum := by
      refine List.sum_nonneg ?_
      intro x hx
      obtain ⟨r, _, hr⟩ := List.mem_map.mp hx
      rw [← hr]; exact ratAbs_nonneg _
    show ((seriesSum (df.rows.map absolute_error_of)).div
        (seriesSum (df.rows.map Row.actual))).mul100 = _
    rw [hS, hz]
    by_cases h0 : (df.rows.map fun r => ratAbs (qError r)).sum = 0
    · rw [if_pos h0, h0]; rfl
    · rw [if_neg h0]
      have hpos : 0 < (df.rows.map fun r => ratAbs (qError r)).sum :=
        lt_of_le_of_ne hS0 (Ne.symm h0)
      simp [PVal.div, PVal.mul100, h0, hpos]
  · intro he
    obtain ⟨rows, c1, c2, c3⟩ := df
    simp only at he
    subst he
    rfl

/-! ### Bounds and monotonicity for the histogram bin edges -/

theorem foldl_min_le_init (xs : List ℚ) : ∀ a : ℚ, xs.foldl min a ≤ a := by
  induction xs with
  | nil => intro a; exact le_refl a
  | cons x xs ih =>
      intro a
      exact le_trans (ih (min a x)) (min_le_left a x)

theorem foldl_min_le_mem (xs : List ℚ) :
    ∀ (a v : ℚ), v ∈ xs → xs.foldl min a ≤ v := by
  induction xs with
  | nil => intro a v hv; simp at hv
  | cons x xs ih =>
      intro a v hv
      rcases List.mem_cons.mp hv with rfl | hv'
      · exact le_trans (foldl_min_le_init xs (min a v)) (min_le_right a v)
      · exact ih (min a x) v hv'

theorem init_le_foldl_max (xs : List ℚ) : ∀ a : ℚ, a ≤ xs.foldl max a := by
  induction xs with
  | nil => intro a; exact le_refl a
  | cons x xs ih =>
      intro a
      exact le_trans (le_max_left a x) (ih (max a x))

theorem mem_le_foldl_max (xs : List ℚ) :
    ∀ (a v : ℚ), v ∈ xs → v ≤ xs.foldl max a := by
  induction xs with
  | nil => intro a v hv; simp at hv
  | cons x xs ih =>
      intro a v hv
      rcases List.mem_cons.mp hv with rfl | hv'
      · exact le_trans (le_max_right a v) (init_le_foldl_max xs (max a v))
      · exact ih (max a x) v hv'

theorem listMin_le_of_mem {l : List ℚ} {v : ℚ} (hv : v ∈ l) :
    listMin l ≤ v := by
  cases l with
  | nil => simp at hv
  | cons x xs =>
      rw [listMin]
      rcases List.mem_cons.mp hv with rfl | hv'
      · exact foldl_min_le_init xs v
      · exact foldl_min_le_mem xs x v hv'

theorem le_listMax_of_mem {l : List ℚ} {v : ℚ} (hv : v ∈ l) :
    v ≤ listMax l := by
  cases l with
  | nil => simp at hv
  | cons x xs =>
      rw [listMax]
      rcases List.mem_cons.mp hv with rfl | hv'
      · exact init_le_foldl_max xs v
      · exact mem_le_foldl_max xs x v hv'

theorem cutEpsilon_pos (x : ℚ) : 0 < cutEpsilon x := by
  rw [cutEpsilon]
  split
  · norm_num
  · rw [ratAbs_eq_abs]
    have : |x| > 0 := abs_pos.mpr (by assumption)
    positivity

theorem cutEdge_lt_succ {l : List ℚ} {b : ℕ} (hb : 1 ≤ b)
    (hle : listMin l ≤ listMax l) (i : ℕ) :
    cutEdge l b i < cutEdge l b (i + 1) := by
  have hbq : (0 : ℚ) < b := by exact_mod_cast hb
  simp only [cutEdge]
  by_cases h : listMin l = listMax l
  · rw [if_pos h, if_pos h, ← h]
    have hε := cutEpsilon_pos (listMin l)
    set mn := listMin l
    set ε := cutEpsilon mn
    have hkey : (↑(i + 1) : ℚ) * ((mn + ε) - (mn - ε)) / b
        - (↑i : ℚ) * ((mn + ε) - (mn - ε)) / b = 2 * ε / b := by
      push_cast
      ring
    have hpos : (0 : ℚ) < 2 * ε / b := by positivity
    linarith
  · rw [if_neg h, if_neg h]
    have hlt : listMin l < listMax l := lt_of_le_of_ne hle h
    set mn := listMin l
    set mx := listMax l
    have hd : (0 : ℚ) < mx - mn := by linarith
    have hne1 : ¬ (i + 1 = 0) := Nat.succ_ne_zero i
    rw [if_neg hne1]
    by_cases hi : i = 0
    · rw [if_pos hi, hi]
      have h1 : (0 : ℚ) < (mx - mn) / 1000 := by positivity
      have h2 : (0 : ℚ) < (mx - mn) / b := by positivity
      push_cast
      rw [one_mul]
      linarith
    · rw [if_neg hi]
      have hkey : (↑(i + 1) : ℚ) * (mx - mn) / b - (↑i : ℚ) * (mx - mn) / b
          = (mx - mn) / b := by
        push_cast
        ring
      have hpos : (0 : ℚ) < (mx - mn) / b := by positivity
      linarith

theorem cutEdge_zero_lt {l : List ℚ} {b : ℕ} {v : ℚ} (hv : v ∈ l) :
    cutEdge l b 0 < v := by
  have hmn : listMin l ≤ v := listMin_le_of_mem hv
  have hmx : v ≤ listMax l := le_listMax_of_mem hv
  simp only [cutEdge]
  by_cases h : listMin l = listMax l
  · rw [if_pos h]
    have hε := cutEpsilon_pos (listMin l)
    push_cast
    rw [zero_mul, zero_div, add_zero]
    linarith
  · rw [if_neg h]
    simp only [if_true]
    have hlt : listMin l < listMax l :=
      lt_of_le_of_ne (le_trans hmn hmx) h
    have h1 : (0 : ℚ) < (listMax l - listMin l) / 1000 := by
      have : (0 : ℚ) < listMax l - listMin l := by linarith
      positivity
    linarith

theorem le_cutEdge_last {l : List ℚ} {b : ℕ} {v : ℚ} (hb : 1 ≤ b)
    (hv : v ∈ l) : v ≤ cutEdge l b b := by
  have hmn : listMin l ≤ v := listMin_le_of_mem hv
  have hmx : v ≤ listMax l := le_listMax_of_mem hv
  have hbq : (0 : ℚ) < b := by exact_mod_cast hb
  have hbne : (b : ℚ) ≠ 0 := ne_of_gt hbq
  simp only [cutEdge]
  by_cases h : listMin l = listMax l
  · rw [if_pos h, ← h]
    have hε := cutEpsilon_pos (listMin l)
    have hkey : (↑b : ℚ) * ((listMin l + cutEpsilon (listMin l))
          - (listMin l - cutEpsilon (listMin l))) / b
        = 2 * cutEpsilon (listMin l) := by
      field_simp
      ring
    rw [hkey]
    have : v ≤ listMin l := h ▸ hmx
    linarith
  · rw [if_neg h]
    have hbne0 : ¬ (b = 0) := by
      intro h0
      rw [h0] at hb
      exact absurd hb (by norm_num)
    rw [if_neg hbne0]
    have hkey : (↑b : ℚ) * (listMax l - listMin l) / b
        = listMax l - listMin l := by
      field_simp
    rw [hkey]
    linarith

/-- The edges of a strictly increasing chain are monotone up to the bound. -/
theorem edges_mono (f : ℕ → ℚ) (b : ℕ)
    (hm : ∀ i, i < b → f i < f (i + 1)) :
    ∀ j, j ≤ b → ∀ i, i ≤ j → f i ≤ f j := by
  intro j
  induction j with
  | zero => intro _ i hi; rw [Nat.le_zero.mp hi]
  | succ j ih =>
      intro hjb i hi
      by_cases hi' : i = j + 1
      · rw [hi']
      · have hij : i ≤ j := Nat.le_of_lt_succ (lt_of_le_of_ne hi hi')
        exact le_trans (ih (Nat.le_of_succ_le hjb) i hij)
          (le_of_lt (hm j hjb))

/-- A value strictly above the first edge and at most the last edge lies in
exactly one of the `b` right-closed bins. -/
theorem exists_unique_bin (f : ℕ → ℚ) :
    ∀ (b : ℕ), (∀ i, i < b → f i < f (i + 1)) → ∀ x, f 0 < x → x ≤ f b →
      ∃ i, (i < b ∧ f i < x ∧ x ≤ f (i + 1))
        ∧ ∀ j, j < b → f j < x → x ≤ f (j + 1) → j = i := by
  intro b
  induction b with
  | zero =>
      intro hm x h0 hb
      exact absurd (lt_of_lt_of_le h0 hb) (lt_irrefl _)
  | succ b ih =>
      intro hm x h0 hb
      by_cases hxb : x ≤ f b
      · obtain ⟨i, hi, huniq⟩ :=
          ih (fun i hib => hm i (Nat.lt_succ_of_lt hib)) x h0 hxb
        refine ⟨i, ⟨Nat.lt_succ_of_lt hi.1, hi.2.1, hi.2.2⟩, ?_⟩
        intro j hj hfj hxj
        by_cases hjb : j = b
        · rw [hjb] at hfj
          exact absurd hfj (not_lt.mpr hxb)
        · exact huniq j (Nat.lt_of_le_of_ne (Nat.le_of_lt_succ hj) hjb) hfj hxj
      · push_neg at hxb
        refine ⟨b, ⟨Nat.lt_succ_self b, hxb, hb⟩, ?_⟩
        intro j hj hfj hxj
        by_cases hjb : j = b
        · exact hjb
        · have hjb' : j + 1 ≤ b :=
            Nat.lt_of_le_of_ne (Nat.le_of_lt_succ hj) hjb
          have hle : f (j + 1) ≤ f b :=
            edges_mono f (b + 1) hm b (Nat.le_succ b) (j + 1) hjb'
          exact absurd (le_trans hxj hle) (not_le.mpr hxb)

/-- Every element of `l` inside the covered range is counted in exactly one
bin, so the bin counts sum to the length of the list. -/
theorem sum_countP_bins (f : ℕ → ℚ) (b : ℕ) (l : List ℚ)
    (hm : ∀ i, i < b → f i < f (i + 1))
    (hbound : ∀ v ∈ l, f 0 < v ∧ v ≤ f b) :
    (Finset.range b).sum
        (fun i => l.countP fun v => decide (f i < v ∧ v ≤ f (i + 1)))
      = l.length := by
  induction l with
  | nil => simp
  | cons x xs ih =>
      have hx := hbound x (List.mem_cons_self x xs)
      have hxs : ∀ v ∈ xs, f 0 < v ∧ v ≤ f b := fun v hv =>
        hbound v (List.mem_cons_of_mem x hv)
      simp only [List.countP_cons]
      rw [Finset.sum_add_distrib, ih hxs, List.length_cons]
      congr 1
      obtain ⟨i0, hi0, huniq⟩ := exists_unique_bin f b hm x hx.1 hx.2
      rw [Finset.sum_eq_single i0]
      · have hd : (decide (f i0 < x ∧ x ≤ f (i0 + 1))) = true := by
          simp [hi0.2.1, hi0.2.2]
        rw [hd]
        rfl
      · intro j hj hji
        have hnot : ¬ (f j < x ∧ x ≤ f (j + 1)) := fun hc =>
          hji (huniq j (Finset.mem_range.mp hj) hc.1 hc.2)
        simp [hnot]
      · intro h0
        exact absurd (Finset.mem_range.mpr hi0.1) h0

/-- Bridge between a sum over `List.range` and the `Finset.range` sum. -/
theorem list_range_map_sum (g : ℕ → ℕ) (b : ℕ) :
    ((List.range b).map g).sum = (Finset.range b).sum g := by
  induction b with
  | zero => simp
  | succ b ih =>
      rw [List.range_succ, List.map_append, List.sum_append,
        Finset.sum_range_succ, ih]
      simp

/-! ### The descending-count sort of `value_counts` -/

theorem insertByCount_perm (x : (ℚ × ℚ) × ℕ) (ys : List ((ℚ × ℚ) × ℕ)) :
    (insertByCount x ys).Perm (x :: ys) := by
  induction ys with
  | nil => exact List.Perm.refl _
  | cons y ys ih =>
      rw [insertByCount]
      split
      · exact List.Perm.refl _
      · exact (ih.cons y).trans (List.Perm.swap x y ys)

theorem sortByCountDesc_perm (xs : List ((ℚ × ℚ) × ℕ)) :
    (sortByCountDesc xs).Perm xs := by
  induction xs with
  | nil => exact List.Perm.refl _
  | cons x xs ih =>
      exact (insertByCount_perm x (sortByCountDesc xs)).trans (ih.cons x)

theorem mem_insertByCount {a x : (ℚ × ℚ) × ℕ} {ys : List ((ℚ × ℚ) × ℕ)} :
    a ∈ insertByCount x ys ↔ a = x ∨ a ∈ ys := by
  rw [(insertByCount_perm x ys).mem_iff, List.mem_cons]

theorem pairwise_insertByCount {x : (ℚ × ℚ) × ℕ} {ys : List ((ℚ × ℚ) × ℕ)}
    (hys : ys.Pairwise (fun a b => b.2 ≤ a.2)) :
    (insertByCount x ys).Pairwise (fun a b => b.2 ≤ a.2) := by
  induction ys with
  | nil => simp [insertByCount]
  | cons y ys ih =>
      rw [insertByCount]
      rcases List.pairwise_cons.mp hys with ⟨hy, hys'⟩
      by_cases h : y.2 < x.2
      · rw [if_pos h]
        refine List.pairwise_cons.mpr ⟨?_, hys⟩
        intro z hz
        rcases List.mem_cons.mp hz with rfl | hz'
        · exact le_of_lt h
        · exact le_trans (hy z hz') (le_of_lt h)
      · rw [if_neg h]
        refine List.pairwise_cons.mpr ⟨?_, ih hys'⟩
        intro z hz
        rcases mem_insertByCount.mp hz with rfl | hz'
        · exact Nat.le_of_not_lt h
        · exact hy z hz'

theorem pairwise_sortByCountDesc (xs : List ((ℚ × ℚ) × ℕ)) :
    (sortByCountDesc xs).Pairwise (fun a b => b.2 ≤ a.2) := by
  induction xs with
  | nil => simp [sortByCountDesc]
  | cons x xs ih => exact pairwise_insertByCount ih

/-! ### Constant lists: min, max and counts -/

theorem le_foldl_min (xs : List ℚ) :
    ∀ (a c : ℚ), c ≤ a → (∀ v ∈ xs, c ≤ v) → c ≤ xs.foldl min a := by
  induction xs with
  | nil => intro a c h _; exact h
  | cons x xs ih =>
      intro a c h hall
      exact ih (min a x) c (le_min h (hall x (List.mem_cons_self x xs)))
        (fun v hv => hall v (List.mem_cons_of_mem x hv))

theorem foldl_max_le (xs : List ℚ) :
    ∀ (a c : ℚ), a ≤ c → (∀ v ∈ xs, v ≤ c) → xs.foldl max a ≤ c := by
  induction xs with
  | nil => intro a c h _; exact h
  | cons x xs ih =>
      intro a c h hall
      exact ih (max a x) c (max_le h (hall x (List.mem_cons_self x xs)))
        (fun v hv => hall v (List.mem_cons_of_mem x hv))

theorem listMin_const {l : List ℚ} {c : ℚ} (hne : l ≠ [])
    (hall : ∀ x ∈ l, x = c) : listMin l = c := by
  obtain ⟨x, hx⟩ := List.exists_mem_of_ne_nil l hne
  refine le_antisymm (le_of_le_of_eq (listMin_le_of_mem hx) (hall x hx)) ?_
  cases l with
  | nil => exact absurd rfl hne
  | cons y ys =>
      rw [listMin]
      exact le_foldl_min ys y c
        (ge_of_eq (hall y (List.mem_cons_self y ys)))
        (fun v hv => ge_of_eq (hall v (List.mem_cons_of_mem y hv)))

theorem listMax_const {l : List ℚ} {c : ℚ} (hne : l ≠ [])
    (hall : ∀ x ∈ l, x = c) : listMax l = c := by
  obtain ⟨x, hx⟩ := List.exists_mem_of_ne_nil l hne
  refine le_antisymm ?_ (le_of_eq_of_le (hall x hx).symm (le_listMax_of_mem hx))
  cases l with
  | nil => exact absurd rfl hne
  | cons y ys =>
      rw [listMax]
      exact foldl_max_le ys y c
        (le_of_eq (hall y (List.mem_cons_self y ys)))
        (fun v hv => le_of_eq (hall v (List.mem_cons_of_mem y hv)))

theorem countP_const (p : ℚ → Bool) (c : ℚ) :
    ∀ (l : List ℚ), (∀ x ∈ l, x = c) →
      l.countP p = if p c then l.length else 0 := by
  intro l
  induction l with
  | nil => intro _; simp
  | cons x xs ih =>
      intro hall
      have hx : x = c := hall x (List.mem_cons_self x xs)
      rw [List.countP_cons, ih (fun v hv => hall v (List.mem_cons_of_mem x hv)),
        hx, List.length_cons]
      by_cases h : p c = true
      · simp [h]
      · simp [h]

/-! ### Permutation invariance of the aggregates -/

theorem PVal.add_left_comm (a b c : PVal) :
    a.add (b.add c) = b.add (a.add c) := by
  cases a <;> cases b <;> cases c <;> simp [PVal.add] <;> ring

theorem foldr_add_perm {l1 l2 : List PVal} (h : l1.Perm l2) (init : PVal) :
    l1.foldr PVal.add init = l2.foldr PVal.add init := by
  induction h with
  | nil => rfl
  | cons x h ih => simp only [List.foldr_cons, ih]
  | swap x y l => simp only [List.foldr_cons, PVal.add_left_comm]
  | trans h1 h2 ih1 ih2 => rw [ih1, ih2]

theorem seriesSum_perm {l1 l2 : List PVal} (h : l1.Perm l2) :
    seriesSum l1 = seriesSum l2 :=
  foldr_add_perm (h.filter _) _

theorem seriesCount_perm {l1 l2 : List PVal} (h : l1.Perm l2) :
    seriesCount l1 = seriesCount l2 :=
  (h.filter _).length_eq

theorem seriesMean_perm {l1 l2 : List PVal} (h : l1.Perm l2) :
    seriesMean l1 = seriesMean l2 := by
  rw [seriesMean, seriesSum_perm h, seriesCount_perm h, seriesMean]

/-- Claim C7: the metrics summary is invariant under permutation of the
input rows — every aggregate is a sum, count or mean over the columns, and
these are order-independent. -/
theorem C7_theorem (df df2 : DataFrame) (hne : df.rows ≠ [])
    (h : df.rows.Perm df2.rows) :
    (calculate_metrics df).2 = (calculate_metrics df2).2 := by
  have h1 : seriesMean (df.rows.map percentage_error_of)
      = seriesMean (df2.rows.map percentage_error_of) :=
    seriesMean_perm (h.map _)
  have h2 : seriesSum (df.rows.map absolute_error_of)
      = seriesSum (df2.rows.map absolute_error_of) :=
    seriesSum_perm (h.map _)
  have h3 : seriesSum (df.rows.map Row.actual)
      = seriesSum (df2.rows.map Row.actual) :=
    seriesSum_perm (h.map _)
  have h4 : seriesMean (df.rows.map rowError)
      = seriesMean (df2.rows.map rowError) :=
    seriesMean_perm (h.map _)
  show MetricsSummary.mk
      ((seriesMean (df.rows.map percentage_error_of)).mul100)
      (((seriesSum (df.rows.map absolute_error_of)).div
        (seriesSum (df.rows.map Row.actual))).mul100)
      (seriesMean (df.rows.map rowError))
      ((PVal.num 100).sub
        ((seriesMean (df.rows.map percentage_error_of)).mul100))
    = (calculate_metrics df2).2
  rw [h1, h2, h3, h4]
  rfl

/-- Claim C7, witness: swapping the two rows of the scenario-1 dataset
leaves the summary unchanged. -/
theorem C7_witness :
    (calculate_metrics { rows := [⟨0, PVal.num 100, PVal.num 110⟩,
        ⟨1, PVal.num 200, PVal.num 180⟩] }).2
      = (calculate_metrics { rows := [⟨1, PVal.num 200, PVal.num 180⟩,
          ⟨0, PVal.num 100, PVal.num 110⟩] }).2 :=
  C7_theorem _ _ (by simp) (List.Perm.swap _ _ _)

/-- Claim C1, witness for the amended theorem at a concrete input with
sum(actual) = 0 and a nonzero absolute error. -/
theorem C1_witness :
    ((calculate_metrics { rows := [⟨0, PVal.num 0, PVal.num 10⟩] }).2.WMAPE
        = if (List.map (fun r => ratAbs (qError r))
              [(⟨0, PVal.num 0, PVal.num 10⟩ : Row)]).sum = 0
          then PVal.nan else PVal.inf)
    ∧ (([(⟨0, PVal.num 0, PVal.num 10⟩ : Row)] : List Row) = [] →
        (calculate_metrics { rows := [⟨0, PVal.num 0, PVal.num 10⟩] }).2
          = ⟨PVal.nan, PVal.nan, PVal.nan, PVal.nan⟩) :=
  C1_theorem { rows := [⟨0, PVal.num 0, PVal.num 10⟩] }
    (by decide)
    (by norm_num [seriesSum, PVal.isNan, PVal.add])

/-! ### Histogram claims -/

/-- Claim C5, counterexample: for the dataset with errors [0, 10, 10, 10]
the histogram is returned ordered by descending count — the bin (8, 10] with
count 3 comes first, before the bin (-0.01, 2] — not by ascending interval
lower bound as claimed. -/
theorem C5_counterexample :
    ¬ (error_bins_df { rows := [⟨0, PVal.num 100, PVal.num 100⟩,
        ⟨1, PVal.num 100, PVal.num 110⟩, ⟨2, PVal.num 200, PVal.num 210⟩,
        ⟨3, PVal.num 300, PVal.num 310⟩] }).Pairwise
      (fun x y => x.1.1 ≤ y.1.1) := by
  intro hp
  have he : error_bins_df { rows := [⟨0, PVal.num 100, PVal.num 100⟩,
      ⟨1, PVal.num 100, PVal.num 110⟩, ⟨2, PVal.num 200, PVal.num 210⟩,
      ⟨3, PVal.num 300, PVal.num 310⟩] }
      = [((8, 10), 3), ((-1/100, 2), 1), ((6, 8), 0), ((4, 6), 0),
         ((2, 4), 0)] := by
    with_unfolding_all rfl
  rw [he] at hp
  have h8 := (List.pairwise_cons.mp hp).1 ((-1/100, 2), 1)
    (List.mem_cons_self _ _)
  norm_num at h8

/-- Claim C5, amended: `value_counts()` sorts the bins by descending count
(its default `sort=True`), so for every error list and bin count the returned
(interval, count) pairs have non-increasing counts; they are not ordered by
ascending interval lower bound. -/
theorem C5_theorem (l : List ℚ) (b : ℕ) :
    (error_bins l b).Pairwise (fun x y => y.2 ≤ x.2) :=
  pairwise_sortByCountDesc _

/-- Claim C8: for a non-empty numeric dataset and any bin count ≥ 1, every
error value falls in exactly one right-closed bin (the lowered leftmost edge
keeps the minimum inside), so the histogram counts sum to the row count. -/
theorem C8_theorem (df : DataFrame) (b : ℕ) (hb : 1 ≤ b)
    (hne : df.rows ≠ []) (hnum : ∀ r ∈ df.rows, r.isNumeric = true) :
    ((error_bins (df.rows.map fun r => (rowError r).toQ) b).map
        Prod.snd).sum = df.rows.length := by
  set L := df.rows.map fun r => (rowError r).toQ with hL
  have hLne : L ≠ [] := by
    rw [hL]
    intro hmap
    exact hne (List.map_eq_nil_iff.mp hmap)
  obtain ⟨x0, hx0⟩ := List.exists_mem_of_ne_nil L hLne
  have hle : listMin L ≤ listMax L :=
    le_trans (listMin_le_of_mem hx0) (le_listMax_of_mem hx0)
  have hmono : ∀ i, i < b → cutEdge L b i < cutEdge L b (i + 1) :=
    fun i _ => cutEdge_lt_succ hb hle i
  have hbound : ∀ v ∈ L, cutEdge L b 0 < v ∧ v ≤ cutEdge L b b :=
    fun v hv => ⟨cutEdge_zero_lt hv, le_cutEdge_last hb hv⟩
  have hperm := (sortByCountDesc_perm ((List.range b).map fun i =>
      ((cutEdge L b i, cutEdge L b (i + 1)),
        L.countP fun v =>
          decide (cutEdge L b i < v ∧ v ≤ cutEdge L b (i + 1))))).map Prod.snd
  unfold error_bins
  rw [hperm.sum_eq, List.map_map, list_range_map_sum]
  have hcomp : (Finset.range b).sum (Prod.snd ∘ fun i =>
      ((cutEdge L b i, cutEdge L b (i + 1)),
        L.countP fun v =>
          decide (cutEdge L b i < v ∧ v ≤ cutEdge L b (i + 1))))
      = (Finset.range b).sum (fun i =>
          L.countP fun v =>
            decide (cutEdge L b i < v ∧ v ≤ cutEdge L b (i + 1))) := rfl
  rw [hcomp, sum_countP_bins (cutEdge L b) b L hmono hbound, hL,
    List.length_map]

/-- Claim C8, witness at a concrete one-row dataset with bin count 5. -/
theorem C8_witness :
    ((error_bins (List.map (fun r => (rowError r).toQ)
        [(⟨0, PVal.num 100, PVal.num 110⟩ : Row)]) 5).map Prod.snd).sum
      = [(⟨0, PVal.num 100, PVal.num 110⟩ : Row)].length :=
  C8_theorem { rows := [⟨0, PVal.num 100, PVal.num 110⟩] } 5
    (by norm_num) (by simp) (by decide)

/-- All-constant error list: the five bins of the epsilon-widened degenerate
range, their counts, and the position of the common value. -/
theorem error_bins_const (l : List ℚ) (c : ℚ) (hne : l ≠ [])
    (hall : ∀ x ∈ l, x = c) :
    (error_bins l 5).length = 5
    ∧ ((error_bins l 5).map Prod.snd).sum = l.length
    ∧ (error_bins l 5).countP (fun p => decide (p.2 ≠ 0)) = 1
    ∧ ∀ p ∈ error_bins l 5,
        (c - cutEpsilon c ≤ p.1.1 ∧ p.1.2 ≤ c + cutEpsilon c)
        ∧ (p.2 ≠ 0 → p.2 = l.length ∧ p.1.1 < c ∧ c ≤ p.1.2) := by
  have hmin : listMin l = c := listMin_const hne hall
  have hmax : listMax l = c := listMax_const hne hall
  have hε : 0 < cutEpsilon c := cutEpsilon_pos c
  have hn : l.length ≠ 0 := by
    intro h0
    exact hne (List.length_eq_zero.mp h0)
  have hedge : ∀ i : ℕ, cutEdge l 5 i
      = (c - cutEpsilon c) + i * (2 * cutEpsilon c) / 5 := by
    intro i
    simp only [cutEdge, hmin, hmax, if_pos rfl]
    push_cast
    ring
  have hspan : ∀ i : ℕ, i ≤ 5 →
      c - cutEpsilon c ≤ cutEdge l 5 i ∧ cutEdge l 5 i ≤ c + cutEpsilon c := by
    intro i hi
    rw [hedge i]
    have hi5 : (i : ℚ) ≤ 5 := by exact_mod_cast hi
    have hge : (0 : ℚ) ≤ (i : ℚ) * (2 * cutEpsilon c) / 5 := by positivity
    constructor
    · linarith
    · nlinarith
  have h2lt : cutEdge l 5 2 < c := by
    rw [hedge 2]
    push_cast
    linarith
  have h3ge : c ≤ cutEdge l 5 3 := by
    rw [hedge 3]
    push_cast
    linarith
  have hcnt0 : l.countP (fun v =>
      decide (cutEdge l 5 0 < v ∧ v ≤ cutEdge l 5 1)) = 0 := by
    rw [countP_const _ c l hall]
    have hno : ¬ (cutEdge l 5 0 < c ∧ c ≤ cutEdge l 5 1) := by
      rw [hedge 0, hedge 1]
      push_cast
      intro hcc
      linarith [hcc.2]
    simp [hno]
  have hcnt1 : l.countP (fun v =>
      decide (cutEdge l 5 1 < v ∧ v ≤ cutEdge l 5 2)) = 0 := by
    rw [countP_const _ c l hall]
    have hno : ¬ (cutEdge l 5 1 < c ∧ c ≤ cutEdge l 5 2) := by
      rw [hedge 1, hedge 2]
      push_cast
      intro hcc
      linarith [hcc.2]
    simp [hno]
  have hcnt2 : l.countP (fun v =>
      decide (cutEdge l 5 2 < v ∧ v ≤ cutEdge l 5 3)) = l.length := by
    rw [countP_const _ c l hall]
    simp [h2lt, h3ge]
  have hcnt3 : l.countP (fun v =>
      decide (cutEdge l 5 3 < v ∧ v ≤ cutEdge l 5 4)) = 0 := by
    rw [countP_const _ c l hall]
    have hno : ¬ (cutEdge l 5 3 < c ∧ c ≤ cutEdge l 5 4) := by
      intro hcc
      exact absurd (lt_of_le_of_lt h3ge hcc.1) (lt_irrefl c)
    simp [hno]
  have hcnt4 : l.countP (fun v =>
      decide (cutEdge l 5 4 < v ∧ v ≤ cutEdge l 5 5)) = 0 := by
    rw [countP_const _ c l hall]
    have hno : ¬ (cutEdge l 5 4 < c ∧ c ≤ cutEdge l 5 5) := by
      rw [hedge 3] at h3ge
      rw [hedge 4]
      push_cast
      push_cast at h3ge
      intro hcc
      linarith [hcc.1]
    simp [hno]
  have hmapeq : (List.range 5).map (fun i =>
      ((cutEdge l 5 i, cutEdge l 5 (i + 1)),
        l.countP fun v => decide (cutEdge l 5 i < v ∧ v ≤ cutEdge l 5 (i + 1))))
      = [((cutEdge l 5 0, cutEdge l 5 1), 0),
         ((cutEdge l 5 1, cutEdge l 5 2), 0),
         ((cutEdge l 5 2, cutEdge l 5 3), l.length),
         ((cutEdge l 5 3, cutEdge l 5 4), 0),
         ((cutEdge l 5 4, cutEdge l 5 5), 0)] := by
    have hr : List.range 5 = [0, 1, 2, 3, 4] := rfl
    rw [hr]
    simp only [List.map_cons, List.map_nil, Nat.reduceAdd]
    rw [hcnt0, hcnt1, hcnt2, hcnt3, hcnt4]
  have hperm : (error_bins l 5).Perm
      [((cutEdge l 5 0, cutEdge l 5 1), 0),
       ((cutEdge l 5 1, cutEdge l 5 2), 0),
       ((cutEdge l 5 2, cutEdge l 5 3), l.length),
       ((cutEdge l 5 3, cutEdge l 5 4), 0),
       ((cutEdge l 5 4, cutEdge l 5 5), 0)] := by
    unfold error_bins
    rw [hmapeq]
    exact sortByCountDesc_perm _
  refine ⟨?_, ?_, ?_, ?_⟩
  · rw [hperm.length_eq]
    rfl
  · rw [(hperm.map Prod.snd).sum_eq]
    simp
  · rw [hperm.countP_eq]
    simp [List.countP_cons, hn]
  · intro p hp
    have hp' := hperm.mem_iff.mp hp
    simp only [List.mem_cons, List.not_mem_nil, or_false] at hp'
    rcases hp' with rfl | rfl | rfl | rfl | rfl
    · exact ⟨⟨(hspan 0 (by norm_num)).1, (hspan 1 (by norm_num)).2⟩,
        fun h0 => absurd rfl h0⟩
    · exact ⟨⟨(hspan 1 (by norm_num)).1, (hspan 2 (by norm_num)).2⟩,
        fun h0 => absurd rfl h0⟩
    · exact ⟨⟨(hspan 2 (by norm_num)).1, (hspan 3 (by norm_num)).2⟩,
        fun _ => ⟨rfl, h2lt, h3ge⟩⟩
    · exact ⟨⟨(hspan 3 (by norm_num)).1, (hspan 4 (by norm_num)).2⟩,
        fun h0 => absurd rfl h0⟩
    · exact ⟨⟨(hspan 4 (by norm_num)).1, (hspan 5 (by norm_num)).2⟩,
        fun h0 => absurd rfl h0⟩

/-- Claim C9: on a non-empty dataset whose error values are all equal to a
common value c, the histogram does not fail: `cut` widens the degenerate
range by `cutEpsilon c` on each side, producing 5 bins that all lie inside
the widened range; the counts sum to the row count and exactly one bin is
non-empty — the one containing c, which carries all the rows. -/
theorem C9_theorem (df : DataFrame) (c : ℚ) (hne : df.rows ≠ [])
    (hnum : ∀ r ∈ df.rows, r.isNumeric = true)
    (hall : ∀ r ∈ df.rows, qError r = c) :
    (error_bins_df df).length = 5
    ∧ ((error_bins_df df).map Prod.snd).sum = df.rows.length
    ∧ (error_bins_df df).countP (fun p => decide (p.2 ≠ 0)) = 1
    ∧ ∀ p ∈ error_bins_df df,
        (c - cutEpsilon c ≤ p.1.1 ∧ p.1.2 ≤ c + cutEpsilon c)
        ∧ (p.2 ≠ 0 → p.2 = df.rows.length ∧ p.1.1 < c ∧ c ≤ p.1.2) := by
  have hLne : df.rows.map (fun r => (rowError r).toQ) ≠ [] := by
    intro hmap
    exact hne (List.map_eq_nil_iff.mp hmap)
  have hallL : ∀ x ∈ df.rows.map (fun r => (rowError r).toQ), x = c := by
    intro x hx
    obtain ⟨r, hr, rfl⟩ := List.mem_map.mp hx
    rw [rowError_numeric r (hnum r hr)]
    exact hall r hr
  have h := error_bins_const _ c hLne hallL
  rw [List.length_map] at h
  exact h

/-- Claim C9, witness at the concrete dataset with both errors equal to 7. -/
theorem C9_witness :
    (error_bins_df { rows := [⟨0, PVal.num 3, PVal.num 10⟩,
        ⟨1, PVal.num 13, PVal.num 20⟩] }).length = 5
    ∧ ((error_bins_df { rows := [⟨0, PVal.num 3, PVal.num 10⟩,
        ⟨1, PVal.num 13, PVal.num 20⟩] }).map Prod.snd).sum
      = [(⟨0, PVal.num 3, PVal.num 10⟩ : Row),
         ⟨1, PVal.num 13, PVal.num 20⟩].length
    ∧ (error_bins_df { rows := [⟨0, PVal.num 3, PVal.num 10⟩,
        ⟨1, PVal.num 13, PVal.num 20⟩] }).countP
        (fun p => decide (p.2 ≠ 0)) = 1
    ∧ ∀ p ∈ error_bins_df { rows := [⟨0, PVal.num 3, PVal.num 10⟩,
        ⟨1, PVal.num 13, PVal.num 20⟩] },
        ((7 : ℚ) - cutEpsilon 7 ≤ p.1.1 ∧ p.1.2 ≤ (7 : ℚ) + cutEpsilon 7)
        ∧ (p.2 ≠ 0 →
            p.2 = [(⟨0, PVal.num 3, PVal.num 10⟩ : Row),
              ⟨1, PVal.num 13, PVal.num 20⟩].length
            ∧ p.1.1 < (7 : ℚ) ∧ (7 : ℚ) ≤ p.1.2) :=
  C9_theorem { rows := [⟨0, PVal.num 3, PVal.num 10⟩,
      ⟨1, PVal.num 13, PVal.num 20⟩] } 7
    (by simp) (by decide)
    (by
      intro r hr
      simp only [List.mem_cons, List.not_mem_nil, or_false] at hr
      rcases hr with rfl | rfl <;> with_unfolding_all rfl)
